import Mathlib

set_option maxRecDepth 8000

/-!
# Verification of the `cmertz/hashmap` C library (src/hashmap.c)

Shallow embedding of the hashmap implementation: keys are byte sequences
modelled as `List Nat`, values are opaque pointers modelled as `Option V`
(`none` is the C `NULL` pointer).  Bucket chains (`struct _hashbucket_s`
linked via `next`) are modelled as `List (Hashbucket V)`; the bucket array
is a `List` of chains.  The caller-supplied hash function is a parameter
of the map state, exactly as in the C struct.  `malloc` failure paths are
not modelled (allocation always succeeds); the `map == NULL` and
`key == NULL` argument checks are likewise outside the embedding, which
works with well-typed states and key lists.

The side effect of the caller-supplied `value_free_function` is observed
by having the operations return, next to the updated map and the boolean
result, the list of value pointers that were passed to the free function
during the call.  The free capability itself is modelled by its presence
(a `Bool` field), the clone capability by an optional function on value
pointers (`Option V → Option V`, since the C clone receives and returns a
raw `void*`, possibly `NULL`).
-/

/-- `struct _hashbucket_s` (src/hashmap.c:34-47): one chain entry.
`key` is the owned byte copy, `key_size` the `uint8_t` size field,
`value` the stored `void*` payload.  The `next` pointer is represented
by the position in the chain list. -/
structure Hashbucket (V : Type) where
  key : List Nat
  key_size : Nat
  value : Option V
  deriving DecidableEq, Repr

/-- `memcmp (a, b, n) == 0` on byte buffers: the first `n` bytes agree.
When a buffer holds fewer than `n` bytes the C call would read out of
bounds (undefined behavior); the model then compares the bytes that
exist, so theorems about that regime are stated only where the C
behavior is defined. -/
def memcmp0 (a b : List Nat) (n : Nat) : Bool :=
  a.take n == b.take n

/-- `_hashbucket_new` (src/hashmap.c:60-89): build a fresh entry.
`key_size` arrives already narrowed to `uint8_t` by the caller;
`memcpy` copies `key_size` bytes of the key, and the value is stored
through the clone capability when one is configured, directly
otherwise. -/
def hashbucket_new (V : Type) (key : List Nat) (key_size : Nat) (value : Option V)
    (value_clone_function : Option (Option V → Option V)) : Hashbucket V :=
  { key := key.take key_size
    key_size := key_size
    value :=
      match value_clone_function with
      | some f => f value
      | none => value }

/-- `_hashbucket_free` (src/hashmap.c:99-110): release one entry.  The
model returns the list of value pointers handed to the free capability:
the stored value, exactly when it is non-`NULL` and a free capability is
configured. -/
def hashbucket_free (V : Type) (bucket : Hashbucket V)
    (value_free_function : Bool) : List (Option V) :=
  if bucket.value.isSome && value_free_function then [bucket.value] else []

/-- `_hashbucket_apply` (src/hashmap.c:120-136): walk a chain from its
head and apply the function to every entry's value.  The model returns
the values in visitation order (the list of arguments the C code passes
to `apply_function`). -/
def hashbucket_apply (V : Type) (chain : List (Hashbucket V)) : List (Option V) :=
  chain.map (fun b => b.value)

/-- `struct _hashmap_s` (src/hashmap.c:163-182). -/
structure Hashmap (V : Type) where
  bucketcount : Nat
  buckets : List (List (Hashbucket V))
  hashmask : Nat
  hashmap_hash_function : List Nat → Nat
  value_free_function : Bool
  value_clone_function : Option (Option V → Option V)

/-- The highest-set-bit loop of `hashmap_new` (src/hashmap.c:204-206):
`for (shifts = 0; count > 1; count >>= 1) shifts++;`. -/
def hashmap_new_shifts (count : Nat) : Nat :=
  if 1 < count then hashmap_new_shifts (count / 2) + 1 else 0
termination_by count
decreasing_by exact Nat.div_lt_self (by omega) (by omega)

/-- The bucket-count computation of `hashmap_new` (src/hashmap.c:203-212):
round the requested count to a power of two.  The comparison
`(1 << (shifts + 1)) - bucketcount < bucketcount - (1 << shifts)` is
carried out on `uint32_t`; for `1 ≤ bucketcount < 2 ^ 30` (the range in
which the C shifts are defined) both differences are the natural-number
differences used here. -/
def hashmap_new_bucketcount (bucketcount : Nat) : Nat :=
  let shifts := hashmap_new_shifts bucketcount
  let shifts :=
    if 2 ^ (shifts + 1) - bucketcount < bucketcount - 2 ^ shifts
    then shifts + 1 else shifts
  2 ^ shifts

/-- `hashmap_new` (src/hashmap.c:186-230).  The `hashmap_hash_function
== NULL` rejection is outside the model (the hash capability is a total
function here); allocation always succeeds.  `calloc` yields
`bucketcount` empty chains. -/
def hashmap_new (V : Type) (bucketcount : Nat)
    (hashmap_hash_function : List Nat → Nat)
    (value_clone_function : Option (Option V → Option V))
    (value_free_function : Bool) : Option (Hashmap V) :=
  if bucketcount < 1 then none
  else
    let n := hashmap_new_bucketcount bucketcount
    some
      { bucketcount := n
        buckets := List.replicate n []
        hashmask := n - 1
        hashmap_hash_function := hashmap_hash_function
        value_free_function := value_free_function
        value_clone_function := value_clone_function }

/-- `_hashmap_hashbucket_insert_at` (src/hashmap.c:271-301), expressed on
the chain stored at the computed index.  An empty bucket receives the
new entry as its head; otherwise the walk
`while (iterator != NULL && memcmp (iterator->key, newbucket->key,
newbucket->key_size) != 0)` stops at the first entry whose first
`newbucket->key_size` key bytes equal the new entry's key: if one exists
the insert is rejected (`none`), otherwise the new entry is linked at
the tail (`previous->next = newbucket`). -/
def hashmap_hashbucket_insert_at (V : Type) (newbucket : Hashbucket V) :
    List (Hashbucket V) → Option (List (Hashbucket V))
  | [] => some [newbucket]
  | e :: rest =>
    if memcmp0 e.key newbucket.key newbucket.key_size then none
    else
      match hashmap_hashbucket_insert_at V newbucket rest with
      | none => none
      | some rest' => some (e :: rest')

/-- `hashmap_add` (src/hashmap.c:303-325).  `key_size` is the length of
the key list; its narrowing to the `uint8_t` parameter of
`_hashbucket_new` is the `% 256`.  Returns the updated map, the boolean
result, and the values passed to the free capability (the rejected
entry's value on the duplicate path). -/
def hashmap_add (V : Type) (map : Hashmap V) (key : List Nat) (value : Option V) :
    Hashmap V × Bool × List (Option V) :=
  if key.length = 0 then (map, false, [])
  else
    let newbucket := hashbucket_new V key (key.length % 256) value map.value_clone_function
    let index := map.hashmap_hash_function key &&& map.hashmask
    match hashmap_hashbucket_insert_at V newbucket (map.buckets.getD index []) with
    | some chain =>
      ({ map with buckets := map.buckets.set index chain }, true, [])
    | none =>
      (map, false, hashbucket_free V newbucket map.value_free_function)

/-- `hashmap_get` (src/hashmap.c:327-352).  The C `hash >= bucketcount`
guard is kept; the `buckets[hash] == NULL` guard is the `find?` on an
empty chain.  Returns the found entry's stored `void*` (`none` doubles
as the C `NULL` not-found result, exactly as in the source). -/
def hashmap_get (V : Type) (map : Hashmap V) (key : List Nat) : Option V :=
  if key.length = 0 then none
  else
    let hash := map.hashmap_hash_function key &&& map.hashmask
    if map.bucketcount ≤ hash then none
    else
      match (map.buckets.getD hash []).find?
          (fun e => memcmp0 e.key key key.length) with
      | some e => e.value
      | none => none

/-- The unlink step of `hashmap_remove`: walk to the first entry whose
first `key.length` bytes equal the key (the `while` loop at
src/hashmap.c:375-379, tracking `previous`), and return it together
with the chain with that entry unlinked. -/
def hashmap_remove_unlink (V : Type) (key : List Nat) :
    List (Hashbucket V) → Option (Hashbucket V × List (Hashbucket V))
  | [] => none
  | e :: rest =>
    if memcmp0 e.key key key.length then some (e, rest)
    else
      match hashmap_remove_unlink V key rest with
      | none => none
      | some (x, rest') => some (x, e :: rest')

/-- `hashmap_remove` (src/hashmap.c:354-392).  Returns the updated map,
the boolean result, and the values passed to the free capability
(the unlinked entry's value, via `_hashbucket_free`). -/
def hashmap_remove (V : Type) (map : Hashmap V) (key : List Nat) :
    Hashmap V × Bool × List (Option V) :=
  if key.length = 0 then (map, false, [])
  else
    let hash := map.hashmap_hash_function key &&& map.hashmask
    if map.bucketcount ≤ hash then (map, false, [])
    else
      match hashmap_remove_unlink V key (map.buckets.getD hash []) with
      | none => (map, false, [])
      | some (e, chain) =>
        ({ map with buckets := map.buckets.set hash chain }, true,
          hashbucket_free V e map.value_free_function)

/-- `hashmap_apply` (src/hashmap.c:232-243): the loop
`for (i = 0; i < map->bucketcount; i++)` visits `buckets[i]` for the
first `bucketcount` buckets in index order; each chain is walked from
the head.  The model returns the values in visitation order (the
arguments the C code passes to `apply_function`). -/
def hashmap_apply (V : Type) (map : Hashmap V) : List (Option V) :=
  ((map.buckets.take map.bucketcount).map (hashbucket_apply V)).flatten

/-- Well-formedness of a map state, established by `hashmap_new` and
kept by every operation: the bucket array has `bucketcount` slots,
`bucketcount` is a power of two and `hashmask = bucketcount - 1`. -/
def Hashmap.WF (V : Type) (map : Hashmap V) : Prop :=
  map.buckets.length = map.bucketcount ∧
  (∃ k, map.bucketcount = 2 ^ k) ∧
  map.hashmask = map.bucketcount - 1

/-- Map states reachable by any sequence of `hashmap_add` /
`hashmap_remove` calls from a freshly constructed map. -/
inductive Hashmap.Reachable (V : Type) : Hashmap V → Prop
  | new (bucketcount : Nat) (hf : List Nat → Nat)
      (cf : Option (Option V → Option V)) (ff : Bool) (m : Hashmap V) :
      hashmap_new V bucketcount hf cf ff = some m → Hashmap.Reachable V m
  | add (m : Hashmap V) (key : List Nat) (value : Option V) :
      Hashmap.Reachable V m → Hashmap.Reachable V (hashmap_add V m key value).1
  | remove (m : Hashmap V) (key : List Nat) :
      Hashmap.Reachable V m → Hashmap.Reachable V (hashmap_remove V m key).1

/-- A concrete hash capability used for concrete test states: every key
goes to bucket 0 (the core only requires determinism of the capability,
src/hashmap.h:48). -/
def exampleHash : List Nat → Nat := fun _ => 0

/-- The one-bucket map produced by
`hashmap_new(1, exampleHash, NULL, free)`: one empty chain, mask 0,
no clone capability, free capability configured. -/
def exampleMap0 : Hashmap Nat :=
  { bucketcount := 1
    buckets := [[]]
    hashmask := 0
    hashmap_hash_function := exampleHash
    value_free_function := true
    value_clone_function := none }

/-- `exampleMap0` after `hashmap_add(map, {1,2}, 2, 7)`. -/
def exampleMap1 : Hashmap Nat := (hashmap_add Nat exampleMap0 [1, 2] (some 7)).1

/-- `exampleMap1` after `hashmap_add(map, {1,3}, 2, 8)`. -/
def exampleMap2 : Hashmap Nat := (hashmap_add Nat exampleMap1 [1, 3] (some 8)).1

/-- `exampleMap0` after `hashmap_add(map, {5}, 1, 7)`. -/
def exampleMap5 : Hashmap Nat := (hashmap_add Nat exampleMap0 [5] (some 7)).1

/-! ## Basic facts about the embedded operations -/

theorem memcmp0_of_eq {a b : List Nat} (n : Nat) (h : a = b) :
    memcmp0 a b n = true := by
  subst h; simp [memcmp0]

theorem memcmp0_full {a b : List Nat} (h : memcmp0 a b b.length = true) :
    a.take b.length = b := by
  simpa [memcmp0] using h

theorem hashmap_new_shifts_le {c : Nat} (h : 1 ≤ c) :
    2 ^ hashmap_new_shifts c ≤ c ∧ c < 2 ^ (hashmap_new_shifts c + 1) := by
  induction c using Nat.strong_induction_on with
  | _ c ih =>
    rw [hashmap_new_shifts]
    by_cases hc : 1 < c
    · have hdiv : 1 ≤ c / 2 := Nat.one_le_div_iff (by omega) |>.mpr (by omega)
      have := ih (c / 2) (Nat.div_lt_self (by omega) (by omega)) hdiv
      simp only [if_pos hc]
      constructor
      · calc 2 ^ (hashmap_new_shifts (c / 2) + 1)
            = 2 ^ hashmap_new_shifts (c / 2) * 2 := by ring
          _ ≤ (c / 2) * 2 := by exact Nat.mul_le_mul_right 2 this.1
          _ ≤ c := by omega
      · have h2 : c / 2 < 2 ^ (hashmap_new_shifts (c / 2) + 1) := this.2
        have : c < 2 ^ (hashmap_new_shifts (c / 2) + 1) * 2 := by omega
        calc c < 2 ^ (hashmap_new_shifts (c / 2) + 1) * 2 := this
          _ = 2 ^ (hashmap_new_shifts (c / 2) + 1 + 1) := by ring
    · simp only [if_neg hc]
      omega

theorem insert_at_some {V : Type} {nb : Hashbucket V} :
    ∀ {l l' : List (Hashbucket V)},
      hashmap_hashbucket_insert_at V nb l = some l' →
      l' = l ++ [nb] ∧ ∀ e ∈ l, memcmp0 e.key nb.key nb.key_size = false
  | [], l', h => by
    simp only [hashmap_hashbucket_insert_at] at h
    cases h
    simp
  | e :: rest, l', h => by
    simp only [hashmap_hashbucket_insert_at] at h
    by_cases hm : memcmp0 e.key nb.key nb.key_size
    · simp [hm] at h
    · simp only [hm, Bool.false_eq_true, if_false] at h
      cases hrec : hashmap_hashbucket_insert_at V nb rest with
      | none => rw [hrec] at h; cases h
      | some rest' =>
        rw [hrec] at h
        cases h
        obtain ⟨h1, h2⟩ := insert_at_some hrec
        subst h1
        refine ⟨by simp, ?_⟩
        intro x hx
        rcases List.mem_cons.mp hx with hx | hx
        · subst hx; simpa using hm
        · exact h2 x hx

theorem insert_at_none {V : Type} {nb : Hashbucket V} :
    ∀ {l : List (Hashbucket V)},
      hashmap_hashbucket_insert_at V nb l = none ↔
      ∃ e ∈ l, memcmp0 e.key nb.key nb.key_size = true
  | [] => by simp [hashmap_hashbucket_insert_at]
  | e :: rest => by
    simp only [hashmap_hashbucket_insert_at]
    by_cases hm : memcmp0 e.key nb.key nb.key_size
    · simp [hm]
    · simp only [hm, Bool.false_eq_true, if_false]
      cases hrec : hashmap_hashbucket_insert_at V nb rest with
      | none =>
        simp only [hrec]
        have hrest := (@insert_at_none V nb rest).mp hrec
        constructor
        · intro _
          obtain ⟨x, hx, hpx⟩ := hrest
          exact ⟨x, List.mem_cons_of_mem _ hx, hpx⟩
        · intro _; trivial
      | some rest' =>
        have : ¬ ∃ x ∈ rest, memcmp0 x.key nb.key nb.key_size = true := by
          intro hex
          have := (@insert_at_none V nb rest).mpr hex
          rw [this] at hrec; cases hrec
        simp only [hrec]
        constructor
        · intro h; cases h
        · intro hex
          rcases hex with ⟨x, hx, hpx⟩
          rcases List.mem_cons.mp hx with hx | hx
          · subst hx; simp [hpx] at hm
          · exact absurd ⟨x, hx, hpx⟩ this

theorem unlink_none {V : Type} {key : List Nat} :
    ∀ {l : List (Hashbucket V)},
      hashmap_remove_unlink V key l = none ↔
      ∀ e ∈ l, memcmp0 e.key key key.length = false
  | [] => by simp [hashmap_remove_unlink]
  | e :: rest => by
    simp only [hashmap_remove_unlink]
    by_cases hm : memcmp0 e.key key key.length
    · simp [hm]
    · simp only [hm, Bool.false_eq_true, if_false]
      cases hrec : hashmap_remove_unlink V key rest with
      | none =>
        have := (@unlink_none V key rest).mp hrec
        simp only [hrec]
        constructor
        · intro _ x hx
          rcases List.mem_cons.mp hx with hx | hx
          · subst hx; simpa using hm
          · exact this x hx
        · intro _; trivial
      | some p =>
        simp only [hrec]
        constructor
        · intro h; cases h
        · intro hall
          have : hashmap_remove_unlink V key rest = none :=
            (@unlink_none V key rest).mpr
              (fun x hx => hall x (List.mem_cons_of_mem _ hx))
          rw [this] at hrec; cases hrec

theorem unlink_some {V : Type} {key : List Nat} :
    ∀ {l : List (Hashbucket V)} {e : Hashbucket V} {l' : List (Hashbucket V)},
      hashmap_remove_unlink V key l = some (e, l') →
      ∃ l1 l2, l = l1 ++ e :: l2 ∧ l' = l1 ++ l2 ∧
        (∀ x ∈ l1, memcmp0 x.key key key.length = false) ∧
        memcmp0 e.key key key.length = true
  | [], e, l', h => by simp [hashmap_remove_unlink] at h
  | x :: rest, e, l', h => by
    simp only [hashmap_remove_unlink] at h
    by_cases hm : memcmp0 x.key key key.length
    · simp only [hm, if_true] at h
      cases h
      exact ⟨[], rest, by simp, by simp, by simp, hm⟩
    · simp only [hm, Bool.false_eq_true, if_false] at h
      cases hrec : hashmap_remove_unlink V key rest with
      | none => rw [hrec] at h; cases h
      | some p =>
        rw [hrec] at h
        cases h
        obtain ⟨l1, l2, h1, h2, h3, h4⟩ := unlink_some hrec
        refine ⟨x :: l1, l2, by simp [h1], by simp [h2], ?_, h4⟩
        intro y hy
        rcases List.mem_cons.mp hy with hy | hy
        · subst hy; simpa using hm
        · exact h3 y hy

theorem unlink_sublist {V : Type} {key : List Nat} {l l' : List (Hashbucket V)}
    {e : Hashbucket V} (h : hashmap_remove_unlink V key l = some (e, l')) :
    l'.Sublist l := by
  obtain ⟨l1, l2, h1, h2, -, -⟩ := unlink_some h
  subst h1; subst h2
  exact List.Sublist.append_left (List.sublist_cons_self e l2) l1

theorem getD_set_self {α : Type} {l : List α} {i : Nat} {a d : α}
    (h : i < l.length) : (l.set i a).getD i d = a := by
  rw [List.getD_eq_getElem?_getD, List.getElem?_set_self (by simpa using h)]
  rfl

theorem getD_set_ne {α : Type} {l : List α} {i j : Nat} {a d : α}
    (h : i ≠ j) : (l.set i a).getD j d = l.getD j d := by
  rw [List.getD_eq_getElem?_getD, List.getElem?_set_ne h,
    ← List.getD_eq_getElem?_getD]

theorem land_mask_lt (h kk : Nat) : h &&& (2 ^ kk - 1) < 2 ^ kk := by
  rw [Nat.and_pow_two_sub_one_eq_mod]
  exact Nat.mod_lt _ (Nat.pos_pow_of_pos kk (by omega))

theorem key_norm {k : List Nat} (hlen : k.length ≤ 255) :
    k.length % 256 = k.length ∧ k.take (k.length % 256) = k := by
  have h : k.length % 256 = k.length := Nat.mod_eq_of_lt (by omega)
  exact ⟨h, by rw [h]; exact List.take_length k⟩

theorem wf_index_lt {V : Type} {m : Hashmap V} (hwf : Hashmap.WF V m)
    (k : List Nat) :
    m.hashmap_hash_function k &&& m.hashmask < m.bucketcount ∧
    m.hashmap_hash_function k &&& m.hashmask < m.buckets.length := by
  obtain ⟨hlen, ⟨kk, hbc⟩, hmask⟩ := hwf
  have : m.hashmap_hash_function k &&& m.hashmask < m.bucketcount := by
    rw [hmask, hbc]
    have h2 : (2 : Nat) ^ kk - 1 = 2 ^ kk - 1 := rfl
    simpa using land_mask_lt (m.hashmap_hash_function k) kk
  exact ⟨this, by omega⟩

theorem hashmap_add_eq {V : Type} (m : Hashmap V) (k : List Nat) (v : Option V)
    (hk : ¬ k.length = 0) :
    hashmap_add V m k v =
      match hashmap_hashbucket_insert_at V
          (hashbucket_new V k (k.length % 256) v m.value_clone_function)
          (m.buckets.getD (m.hashmap_hash_function k &&& m.hashmask) []) with
      | some chain =>
        ({ m with buckets :=
            m.buckets.set (m.hashmap_hash_function k &&& m.hashmask) chain },
          true, [])
      | none =>
        (m, false,
          hashbucket_free V
            (hashbucket_new V k (k.length % 256) v m.value_clone_function)
            m.value_free_function) := by
  simp only [hashmap_add, if_neg hk]

theorem add_success {V : Type} {m : Hashmap V} {k : List Nat} {v : Option V}
    (hok : (hashmap_add V m k v).2.1 = true) :
    k.length ≠ 0 ∧
    ∃ chain',
      hashmap_hashbucket_insert_at V
          (hashbucket_new V k (k.length % 256) v m.value_clone_function)
          (m.buckets.getD (m.hashmap_hash_function k &&& m.hashmask) []) =
        some chain' ∧
      (hashmap_add V m k v).1.buckets =
        m.buckets.set (m.hashmap_hash_function k &&& m.hashmask) chain' ∧
      (hashmap_add V m k v).1.bucketcount = m.bucketcount ∧
      (hashmap_add V m k v).1.hashmask = m.hashmask ∧
      (hashmap_add V m k v).1.hashmap_hash_function = m.hashmap_hash_function ∧
      (hashmap_add V m k v).1.value_clone_function = m.value_clone_function ∧
      (hashmap_add V m k v).1.value_free_function = m.value_free_function := by
  by_cases hk : k.length = 0
  · simp [hashmap_add, hk] at hok
  · refine ⟨hk, ?_⟩
    rw [hashmap_add_eq m k v hk] at hok ⊢
    cases hins : hashmap_hashbucket_insert_at V
        (hashbucket_new V k (k.length % 256) v m.value_clone_function)
        (m.buckets.getD (m.hashmap_hash_function k &&& m.hashmask) []) with
    | none => rw [hins] at hok; simp at hok
    | some chain' => exact ⟨chain', rfl, rfl, rfl, rfl, rfl, rfl, rfl⟩

theorem add_failure {V : Type} {m : Hashmap V} {k : List Nat} {v : Option V}
    (hk : k.length ≠ 0)
    (hfail : (hashmap_add V m k v).2.1 = false) :
    hashmap_hashbucket_insert_at V
        (hashbucket_new V k (k.length % 256) v m.value_clone_function)
        (m.buckets.getD (m.hashmap_hash_function k &&& m.hashmask) []) = none ∧
    hashmap_add V m k v =
      (m, false,
        hashbucket_free V
          (hashbucket_new V k (k.length % 256) v m.value_clone_function)
          m.value_free_function) := by
  rw [hashmap_add_eq m k v hk] at hfail ⊢
  cases hins : hashmap_hashbucket_insert_at V
      (hashbucket_new V k (k.length % 256) v m.value_clone_function)
      (m.buckets.getD (m.hashmap_hash_function k &&& m.hashmask) []) with
  | some chain' => rw [hins] at hfail; simp at hfail
  | none => exact ⟨rfl, rfl⟩

theorem hashmap_get_eq {V : Type} (m : Hashmap V) (k : List Nat)
    (hk : ¬ k.length = 0)
    (hlt : m.hashmap_hash_function k &&& m.hashmask < m.bucketcount) :
    hashmap_get V m k =
      match (m.buckets.getD (m.hashmap_hash_function k &&& m.hashmask) []).find?
          (fun e => memcmp0 e.key k k.length) with
      | some e => e.value
      | none => none := by
  simp only [hashmap_get, if_neg hk, if_neg (Nat.not_le.mpr hlt)]

theorem hashmap_remove_eq {V : Type} (m : Hashmap V) (k : List Nat)
    (hk : ¬ k.length = 0)
    (hlt : m.hashmap_hash_function k &&& m.hashmask < m.bucketcount) :
    hashmap_remove V m k =
      match hashmap_remove_unlink V k
          (m.buckets.getD (m.hashmap_hash_function k &&& m.hashmask) []) with
      | none => (m, false, [])
      | some (e, chain) =>
        ({ m with buckets :=
            m.buckets.set (m.hashmap_hash_function k &&& m.hashmask) chain },
          true, hashbucket_free V e m.value_free_function) := by
  simp only [hashmap_remove, if_neg hk, if_neg (Nat.not_le.mpr hlt)]

theorem hashmap_new_bucketcount_nearest (c : Nat) (h1 : 1 ≤ c) :
    (∃ k, hashmap_new_bucketcount c = 2 ^ k) ∧
    ∀ j : Nat,
      Nat.dist c (hashmap_new_bucketcount c) ≤ Nat.dist c (2 ^ j) ∧
      (Nat.dist c (2 ^ j) ≤ Nat.dist c (hashmap_new_bucketcount c) →
        hashmap_new_bucketcount c ≤ 2 ^ j) := by
  obtain ⟨hlo, hhi⟩ := hashmap_new_shifts_le h1
  have hB : hashmap_new_bucketcount c =
      2 ^ (if 2 ^ (hashmap_new_shifts c + 1) - c < c - 2 ^ hashmap_new_shifts c
        then hashmap_new_shifts c + 1 else hashmap_new_shifts c) := rfl
  have hpow : (2 : Nat) ^ (hashmap_new_shifts c + 1) =
      2 * 2 ^ hashmap_new_shifts c := by ring
  constructor
  · exact ⟨_, hB⟩
  intro j
  rcases le_or_lt j (hashmap_new_shifts c) with hj | hj
  · have hPle : (2 : Nat) ^ j ≤ 2 ^ hashmap_new_shifts c :=
      Nat.pow_le_pow_right (by omega) hj
    by_cases hcond :
        2 ^ (hashmap_new_shifts c + 1) - c < c - 2 ^ hashmap_new_shifts c
    · rw [hB, if_pos hcond]
      simp only [Nat.dist]
      omega
    · rw [hB, if_neg hcond]
      simp only [Nat.dist]
      omega
  · have hPge : (2 : Nat) ^ (hashmap_new_shifts c + 1) ≤ 2 ^ j :=
      Nat.pow_le_pow_right (by omega) (by omega)
    by_cases hcond :
        2 ^ (hashmap_new_shifts c + 1) - c < c - 2 ^ hashmap_new_shifts c
    · rw [hB, if_pos hcond]
      simp only [Nat.dist]
      omega
    · rw [hB, if_neg hcond]
      simp only [Nat.dist]
      omega

theorem hashmap_new_shifts_one : hashmap_new_shifts 1 = 0 := by
  rw [hashmap_new_shifts]; norm_num

theorem hashmap_new_bucketcount_one : hashmap_new_bucketcount 1 = 1 := by
  simp [hashmap_new_bucketcount, hashmap_new_shifts_one]

theorem exampleMap0_new :
    hashmap_new Nat 1 exampleHash none true = some exampleMap0 := by
  simp [hashmap_new, hashmap_new_bucketcount_one, exampleMap0]

/-! ## Claim theorems -/

/-- C1 (amended): for every requested capacity `1 ≤ c < 2 ^ 30` (the
range in which the C shift arithmetic of src/hashmap.c:205-212 is
defined), `hashmap_new` succeeds, the resulting `bucket_count` is a
power of two and is the power of two nearest to `c` with ties rounded
DOWN (the strict `<` at src/hashmap.c:209 keeps `shifts` on a tie), and
`mask = bucket_count - 1`.  In particular c=1 gives 1 and c=5 gives 4,
but c=3 gives 2 and c=6 gives 4, not 4 and 8 as the claim states. -/
theorem hashmap_new_sizing_nearest_tie_down (V : Type) (c : Nat)
    (hf : List Nat → Nat) (cf : Option (Option V → Option V)) (ff : Bool)
    (h1 : 1 ≤ c) (h2 : c < 2 ^ 30) :
    ∃ m : Hashmap V, hashmap_new V c hf cf ff = some m ∧
      (∃ k, m.bucketcount = 2 ^ k) ∧
      (∀ j : Nat, Nat.dist c m.bucketcount ≤ Nat.dist c (2 ^ j) ∧
        (Nat.dist c (2 ^ j) ≤ Nat.dist c m.bucketcount →
          m.bucketcount ≤ 2 ^ j)) ∧
      m.hashmask = m.bucketcount - 1 := by
  obtain ⟨hp, hnear⟩ := hashmap_new_bucketcount_nearest c h1
  refine ⟨{ bucketcount := hashmap_new_bucketcount c
            buckets := List.replicate (hashmap_new_bucketcount c) []
            hashmask := hashmap_new_bucketcount c - 1
            hashmap_hash_function := hf
            value_free_function := ff
            value_clone_function := cf }, ?_, hp, hnear, rfl⟩
  simp only [hashmap_new, if_neg (by omega : ¬ c < 1)]

/-- C1 witness: at requested capacity 6 the hypotheses hold and the
nearest power of two (ties down) is delivered. -/
theorem hashmap_new_sizing_nearest_tie_down_witness :
    1 ≤ 6 ∧ (6 : Nat) < 2 ^ 30 ∧
    (∃ m : Hashmap Nat, hashmap_new Nat 6 exampleHash none false = some m ∧
      (∃ k, m.bucketcount = 2 ^ k) ∧
      (∀ j : Nat, Nat.dist 6 m.bucketcount ≤ Nat.dist 6 (2 ^ j) ∧
        (Nat.dist 6 (2 ^ j) ≤ Nat.dist 6 m.bucketcount →
          m.bucketcount ≤ 2 ^ j)) ∧
      m.hashmask = m.bucketcount - 1) :=
  ⟨by norm_num, by norm_num,
    hashmap_new_sizing_nearest_tie_down Nat 6 exampleHash none false
      (by norm_num) (by norm_num)⟩

/-- C1 counterexample: the claim says requested capacity 3 yields bucket
count 4 (nearest power of two with ties rounded up); the code yields 2. -/
theorem hashmap_new_sizing_tie_up_counterexample :
    (hashmap_new Nat 3 exampleHash none false).map (fun m => m.bucketcount) =
      some 2 ∧ (2 : Nat) ≠ 4 := by
  have h3 : hashmap_new_shifts 3 = 1 := by simp [hashmap_new_shifts]
  have hb : hashmap_new_bucketcount 3 = 2 := by
    simp [hashmap_new_bucketcount, h3]
  exact ⟨by simp [hashmap_new, hb], by norm_num⟩

/-- C8: `hashmap_add`, `hashmap_get` and `hashmap_remove` with a
zero-length key always fail (`false` / `NULL`), leave the map unchanged
and release nothing (src/hashmap.c:311-312, 335-336, 363-364). -/
theorem empty_key_always_fails (V : Type) (m : Hashmap V) (v : Option V) :
    hashmap_add V m [] v = (m, false, []) ∧
    hashmap_get V m [] = none ∧
    hashmap_remove V m [] = (m, false, []) :=
  ⟨rfl, rfl, rfl⟩

/-- C7: `hashmap_apply` invokes the function exactly once per entry, in
the order bucket index ascending, then chain order within each bucket;
the total number of invocations is the total entry count. -/
theorem hashmap_apply_exactly_once (V : Type) (m : Hashmap V)
    (h : m.buckets.length = m.bucketcount) :
    hashmap_apply V m =
      (m.buckets.map (fun chain => chain.map (fun e => e.value))).flatten ∧
    (hashmap_apply V m).length = (m.buckets.map List.length).sum := by
  have htake : m.buckets.take m.bucketcount = m.buckets := by
    rw [← h]; exact List.take_length m.buckets
  unfold hashmap_apply
  rw [htake]
  refine ⟨rfl, ?_⟩
  rw [List.length_flatten]
  congr 1
  rw [List.map_map]
  apply List.map_congr_left
  intro chain _
  simp [hashbucket_apply]

/-- C7 witness: on a concrete two-entry map the traversal is the
flattened bucket list and the invocation count is the entry count. -/
theorem hashmap_apply_exactly_once_witness :
    hashmap_apply Nat exampleMap2 =
      (exampleMap2.buckets.map (fun chain => chain.map (fun e => e.value))).flatten ∧
    (hashmap_apply Nat exampleMap2).length =
      (exampleMap2.buckets.map List.length).sum :=
  hashmap_apply_exactly_once Nat exampleMap2 rfl

/-- C9: the public `size_t key_size` is silently narrowed to the entry's
`uint8_t key_size` field (src/hashmap.c:40, 62, 314): when an add with a
key longer than 255 bytes succeeds, the appended entry records only
`key_size mod 256` as its key length and copies only that many bytes. -/
theorem long_key_truncated (V : Type) (m : Hashmap V) (k : List Nat)
    (v : Option V) (hwf : Hashmap.WF V m) (hlen : 255 < k.length)
    (hok : (hashmap_add V m k v).2.1 = true) :
    ∃ e : Hashbucket V,
      (hashmap_add V m k v).1.buckets.getD
          (m.hashmap_hash_function k &&& m.hashmask) [] =
        m.buckets.getD (m.hashmap_hash_function k &&& m.hashmask) [] ++ [e] ∧
      e.key_size = k.length % 256 ∧
      e.key = k.take (k.length % 256) ∧
      e.key.length = k.length % 256 ∧
      e.key_size < k.length := by
  obtain ⟨hk, chain', hins, hbk, -, -, -, -, -⟩ := add_success hok
  obtain ⟨hchain, -⟩ := insert_at_some hins
  have hmod : k.length % 256 < 256 := Nat.mod_lt _ (by omega)
  refine ⟨hashbucket_new V k (k.length % 256) v m.value_clone_function,
    ?_, rfl, rfl, ?_, ?_⟩
  · rw [hbk]
    have hlt := (wf_index_lt hwf k).2
    calc (m.buckets.set (m.hashmap_hash_function k &&& m.hashmask)
          chain').getD (m.hashmap_hash_function k &&& m.hashmask) [] =
        chain' := getD_set_self hlt
      _ = _ := hchain
  · simp only [hashbucket_new, List.length_take]
    omega
  · simp only [hashbucket_new]
    omega

/-- C9 witness: a 256-byte key is stored with `key_size = 0` and an
empty key copy. -/
theorem long_key_truncated_witness :
    Hashmap.WF Nat exampleMap0 ∧
    255 < (List.replicate 256 3).length ∧
    ∃ e : Hashbucket Nat,
      (hashmap_add Nat exampleMap0 (List.replicate 256 3) (some 1)).1.buckets.getD
          (exampleMap0.hashmap_hash_function (List.replicate 256 3) &&&
            exampleMap0.hashmask) [] =
        exampleMap0.buckets.getD
          (exampleMap0.hashmap_hash_function (List.replicate 256 3) &&&
            exampleMap0.hashmask) [] ++ [e] ∧
      e.key_size = (List.replicate 256 3).length % 256 ∧
      e.key = (List.replicate 256 3).take ((List.replicate 256 3).length % 256) ∧
      e.key.length = (List.replicate 256 3).length % 256 ∧
      e.key_size < (List.replicate 256 3).length :=
  ⟨⟨rfl, ⟨0, rfl⟩, rfl⟩, by simp,
    long_key_truncated Nat exampleMap0 (List.replicate 256 3) (some 1)
      ⟨rfl, ⟨0, rfl⟩, rfl⟩ (by simp) (by decide)⟩

/-- C10: with no clone capability but a free capability configured, a
duplicate-rejected add(k, v2) passes the caller's value v2 itself to the
free function (src/hashmap.c:318-321 with src/hashmap.c:105-106): the
rejected entry holds the caller's original reference, not a clone. -/
theorem duplicate_rejected_frees_caller_value (V : Type) (m : Hashmap V)
    (k : List Nat) (x : V)
    (hclone : m.value_clone_function = none)
    (hfree : m.value_free_function = true)
    (hk : k.length ≠ 0)
    (hdup : (hashmap_add V m k (some x)).2.1 = false) :
    (hashmap_add V m k (some x)).2.2 = [some x] := by
  obtain ⟨-, heq⟩ := add_failure hk hdup
  rw [heq]
  simp [hashbucket_free, hashbucket_new, hclone, hfree]

/-- C10 witness: re-adding key {1,2} with value 9 into the map that
already holds that key (no clone, free configured) hands 9 itself to
the free function. -/
theorem duplicate_rejected_frees_caller_value_witness :
    (hashmap_add Nat exampleMap1 [1, 2] (some 9)).2.2 = [some 9] :=
  duplicate_rejected_frees_caller_value Nat exampleMap1 [1, 2] 9
    rfl rfl (by decide) (by decide)

theorem hashbucket_new_key (V : Type) (k : List Nat) (ks : Nat) (v : Option V)
    (cf : Option (Option V → Option V)) :
    (hashbucket_new V k ks v cf).key = k.take ks := rfl

theorem hashbucket_new_key_size (V : Type) (k : List Nat) (ks : Nat)
    (v : Option V) (cf : Option (Option V → Option V)) :
    (hashbucket_new V k ks v cf).key_size = ks := rfl

theorem find_after_add {V : Type} {m : Hashmap V} {k : List Nat} {v : Option V}
    (hwf : Hashmap.WF V m) (hlen : k.length ≤ 255)
    (hok : (hashmap_add V m k v).2.1 = true) :
    ((hashmap_add V m k v).1.buckets.getD
        (m.hashmap_hash_function k &&& m.hashmask) []).find?
      (fun e => memcmp0 e.key k k.length) =
      some (hashbucket_new V k (k.length % 256) v m.value_clone_function) := by
  obtain ⟨hk, chain', hins, hbk, hbc, hmask, hhf, hcl, hfr⟩ := add_success hok
  obtain ⟨hmod, htake⟩ := key_norm hlen
  obtain ⟨hltb, hltl⟩ := wf_index_lt hwf k
  obtain ⟨hchain', hnomatch⟩ := insert_at_some hins
  rw [hbk, getD_set_self hltl, hchain', List.find?_append]
  have hold : (m.buckets.getD (m.hashmap_hash_function k &&& m.hashmask) []).find?
      (fun e => memcmp0 e.key k k.length) = none := by
    rw [List.find?_eq_none]
    intro x hx
    have hx' := hnomatch x hx
    rw [hashbucket_new_key, hashbucket_new_key_size, hmod, List.take_length] at hx'
    simp [hx']
  have hpred : memcmp0
      (hashbucket_new V k (k.length % 256) v m.value_clone_function).key
      k k.length = true := by
    rw [hashbucket_new_key, hmod, List.take_length]
    exact memcmp0_of_eq _ rfl
  rw [hold]
  simp [List.find?_cons, hpred]

theorem get_after_add_core {V : Type} {m : Hashmap V} {k : List Nat}
    {v : Option V} (hwf : Hashmap.WF V m) (hlen : k.length ≤ 255)
    (hok : (hashmap_add V m k v).2.1 = true) :
    hashmap_get V (hashmap_add V m k v).1 k =
      (hashbucket_new V k (k.length % 256) v m.value_clone_function).value := by
  obtain ⟨hk, chain', hins, hbk, hbc, hmask, hhf, hcl, hfr⟩ := add_success hok
  obtain ⟨hltb, hltl⟩ := wf_index_lt hwf k
  have hlt1 : (hashmap_add V m k v).1.hashmap_hash_function k &&&
      (hashmap_add V m k v).1.hashmask < (hashmap_add V m k v).1.bucketcount := by
    rw [hhf, hmask, hbc]; exact hltb
  rw [hashmap_get_eq _ k hk hlt1, hhf, hmask, find_after_add hwf hlen hok]

theorem second_add_rejected_core {V : Type} {m : Hashmap V} {k : List Nat}
    {v1 : Option V} (v2 : Option V)
    (hwf : Hashmap.WF V m) (hlen : k.length ≤ 255)
    (hok : (hashmap_add V m k v1).2.1 = true) :
    hashmap_add V (hashmap_add V m k v1).1 k v2 =
      ((hashmap_add V m k v1).1, false,
        hashbucket_free V
          (hashbucket_new V k (k.length % 256) v2 m.value_clone_function)
          m.value_free_function) := by
  obtain ⟨hk, chain', hins, hbk, hbc, hmask, hhf, hcl, hfr⟩ := add_success hok
  obtain ⟨hmod, htake⟩ := key_norm hlen
  obtain ⟨hltb, hltl⟩ := wf_index_lt hwf k
  obtain ⟨hchain', hnomatch⟩ := insert_at_some hins
  rw [hashmap_add_eq _ k v2 hk, hcl, hhf, hmask, hfr, hbk,
    getD_set_self hltl, hchain']
  have hins2 : hashmap_hashbucket_insert_at V
      (hashbucket_new V k (k.length % 256) v2 m.value_clone_function)
      ((m.buckets.getD (m.hashmap_hash_function k &&& m.hashmask) []) ++
        [hashbucket_new V k (k.length % 256) v1 m.value_clone_function]) =
      none := by
    apply insert_at_none.mpr
    refine ⟨hashbucket_new V k (k.length % 256) v1 m.value_clone_function,
      by simp, ?_⟩
    rw [hashbucket_new_key, hashbucket_new_key, hashbucket_new_key_size,
      hmod, List.take_length]
    exact memcmp0_of_eq _ rfl
  rw [hins2]

theorem wf_add {V : Type} (m : Hashmap V) (k : List Nat) (v : Option V)
    (hwf : Hashmap.WF V m) : Hashmap.WF V (hashmap_add V m k v).1 := by
  by_cases hk : k.length = 0
  · simpa [hashmap_add, hk] using hwf
  · rw [hashmap_add_eq m k v hk]
    cases hins : hashmap_hashbucket_insert_at V
        (hashbucket_new V k (k.length % 256) v m.value_clone_function)
        (m.buckets.getD (m.hashmap_hash_function k &&& m.hashmask) []) with
    | none => exact hwf
    | some chain' =>
      obtain ⟨h1, h2, h3⟩ := hwf
      exact ⟨by simpa using h1, h2, h3⟩

theorem get_stable_under_add {V : Type} {m : Hashmap V} {k : List Nat}
    (k' : List Nat) (v' : Option V)
    (hwf : Hashmap.WF V m) (hk : k.length ≠ 0)
    (hfound : (m.buckets.getD (m.hashmap_hash_function k &&& m.hashmask) []).find?
        (fun e => memcmp0 e.key k k.length) ≠ none) :
    hashmap_get V (hashmap_add V m k' v').1 k = hashmap_get V m k := by
  obtain ⟨hltb, hltl⟩ := wf_index_lt hwf k
  obtain ⟨e, he⟩ := Option.ne_none_iff_exists'.mp hfound
  by_cases hok' : (hashmap_add V m k' v').2.1 = true
  · obtain ⟨hk', chain', hins', hbk, hbc, hmask, hhf, hcl, hfr⟩ :=
      add_success hok'
    obtain ⟨hchain', hno⟩ := insert_at_some hins'
    have hlt1 : (hashmap_add V m k' v').1.hashmap_hash_function k &&&
        (hashmap_add V m k' v').1.hashmask <
        (hashmap_add V m k' v').1.bucketcount := by
      rw [hhf, hmask, hbc]; exact hltb
    rw [hashmap_get_eq _ k hk hlt1, hhf, hmask, hbk,
      hashmap_get_eq m k hk hltb]
    by_cases hidx : (m.hashmap_hash_function k' &&& m.hashmask) =
        (m.hashmap_hash_function k &&& m.hashmask)
    · rw [hidx, getD_set_self hltl, hchain', hidx, List.find?_append, he]
      rfl
    · rw [getD_set_ne hidx]
  · have hfail : (hashmap_add V m k' v').2.1 = false := by
      simpa using hok'
    by_cases hk' : k'.length = 0
    · simp [hashmap_add, hk']
    · rw [(add_failure hk' hfail).2]

/-- C3: after a successful `add(k, v1)` (non-empty key of at most 255
bytes, so the `uint8_t` narrowing is the identity), a second
`add(k, v2)` with the identical key returns failure, the map is
unchanged by the rejected insert, and `get(k)` still returns v1 (no
clone capability) or `clone_function(v1)` (clone configured):
insert rejects duplicates, it does not update. -/
theorem add_duplicate_rejected_not_update (V : Type) (m : Hashmap V)
    (k : List Nat) (v1 v2 : Option V)
    (hwf : Hashmap.WF V m) (hlen : k.length ≤ 255)
    (hok : (hashmap_add V m k v1).2.1 = true) :
    (hashmap_add V (hashmap_add V m k v1).1 k v2).2.1 = false ∧
    (hashmap_add V (hashmap_add V m k v1).1 k v2).1 =
      (hashmap_add V m k v1).1 ∧
    hashmap_get V (hashmap_add V m k v1).1 k =
      (match m.value_clone_function with
        | some f => f v1
        | none => v1) := by
  have h2 := second_add_rejected_core v2 hwf hlen hok
  refine ⟨by rw [h2], by rw [h2], ?_⟩
  rw [get_after_add_core hwf hlen hok]
  rfl

/-- C3 witness: on the concrete one-bucket map, re-adding key {1,2} is
rejected, the map is unchanged and get still yields the first value. -/
theorem add_duplicate_rejected_not_update_witness :
    (hashmap_add Nat (hashmap_add Nat exampleMap0 [1, 2] (some 7)).1
        [1, 2] (some 9)).2.1 = false ∧
    (hashmap_add Nat (hashmap_add Nat exampleMap0 [1, 2] (some 7)).1
        [1, 2] (some 9)).1 =
      (hashmap_add Nat exampleMap0 [1, 2] (some 7)).1 ∧
    hashmap_get Nat (hashmap_add Nat exampleMap0 [1, 2] (some 7)).1 [1, 2] =
      (match exampleMap0.value_clone_function with
        | some f => f (some 7)
        | none => some 7) :=
  add_duplicate_rejected_not_update Nat exampleMap0 [1, 2] (some 7) (some 9)
    ⟨rfl, ⟨0, rfl⟩, rfl⟩ (by decide) (by decide)

/-- C4 (amended): a successful add(k, v) followed by get(k) returns v
when no clone capability is configured, or clone_function(v) when one
is (keys of at most 255 bytes), and the value remains retrievable
across any further adds.  It does NOT hold "until k is removed" as the
claim states: a remove with a different key that is a byte-prefix of
the stored key can delete k's entry (see the counterexample). -/
theorem add_then_get_returns_value (V : Type) (m : Hashmap V)
    (k : List Nat) (v : Option V)
    (hwf : Hashmap.WF V m) (hlen : k.length ≤ 255)
    (hok : (hashmap_add V m k v).2.1 = true) :
    hashmap_get V (hashmap_add V m k v).1 k =
      (match m.value_clone_function with
        | some f => f v
        | none => v) ∧
    ∀ k' v',
      hashmap_get V (hashmap_add V (hashmap_add V m k v).1 k' v').1 k =
        (match m.value_clone_function with
          | some f => f v
          | none => v) := by
  have hg := get_after_add_core hwf hlen hok
  have hk : k.length ≠ 0 := (add_success hok).1
  constructor
  · rw [hg]; rfl
  · intro k' v'
    have hwf1 := wf_add m k v hwf
    have hfound : ((hashmap_add V m k v).1.buckets.getD
        ((hashmap_add V m k v).1.hashmap_hash_function k &&&
          (hashmap_add V m k v).1.hashmask) []).find?
        (fun e => memcmp0 e.key k k.length) ≠ none := by
      obtain ⟨-, chain', hins, hbk, hbc, hmask, hhf, hcl, hfr⟩ :=
        add_success hok
      rw [hhf, hmask, find_after_add hwf hlen hok]
      simp
    rw [get_stable_under_add k' v' hwf1 hk hfound, hg]; rfl

/-- C4 witness: add({1,2}, 7) into the concrete one-bucket map, then
get({1,2}) yields 7, also after any further add. -/
theorem add_then_get_returns_value_witness :
    hashmap_get Nat (hashmap_add Nat exampleMap0 [1, 2] (some 7)).1 [1, 2] =
      (match exampleMap0.value_clone_function with
        | some f => f (some 7)
        | none => some 7) ∧
    ∀ k' v',
      hashmap_get Nat
          (hashmap_add Nat (hashmap_add Nat exampleMap0 [1, 2] (some 7)).1
            k' v').1 [1, 2] =
        (match exampleMap0.value_clone_function with
          | some f => f (some 7)
          | none => some 7) :=
  add_then_get_returns_value Nat exampleMap0 [1, 2] (some 7)
    ⟨rfl, ⟨0, rfl⟩, rfl⟩ (by decide) (by decide)

/-- C4 counterexample: add({1,2}, 7) succeeds and get({1,2}) returns 7,
but after remove({1}) — a call that does not remove key {1,2} — the
entry for {1,2} is gone and get({1,2}) reports not-found, because the
length-free `memcmp` lets the one-byte probe {1} match the entry
{1,2}. -/
theorem add_then_get_until_removed_counterexample :
    (hashmap_add Nat exampleMap0 [1, 2] (some 7)).2.1 = true ∧
    hashmap_get Nat exampleMap1 [1, 2] = some 7 ∧
    (hashmap_remove Nat exampleMap1 [1]).2.1 = true ∧
    hashmap_get Nat (hashmap_remove Nat exampleMap1 [1]).1 [1, 2] = none :=
  ⟨by decide, by decide, by decide, by decide⟩

/-- C2 (amended): key matching in `hashmap_get` and in the duplicate
walk of the insert compares only raw key bytes via `memcmp` with the
probe's (respectively the new entry's narrowed) key size, and never
compares stored key lengths: `get` returns a stored value only from an
entry whose first `key_size` key bytes equal the probe key, and the
insert walk rejects exactly when some entry's first
`newbucket->key_size` key bytes equal the new entry's key.  An entry
whose stored key merely begins with the probe key is therefore also a
match (see the counterexample); exact length-and-content matching is
not checked. -/
theorem key_match_by_bytes_only (V : Type) :
    (∀ (m : Hashmap V) (k : List Nat) (v : V),
      hashmap_get V m k = some v →
      ∃ e ∈ m.buckets.getD (m.hashmap_hash_function k &&& m.hashmask) [],
        e.value = some v ∧ e.key.take k.length = k.take k.length) ∧
    (∀ (nb : Hashbucket V) (chain : List (Hashbucket V)),
      hashmap_hashbucket_insert_at V nb chain = none ↔
      ∃ e ∈ chain, e.key.take nb.key_size = nb.key.take nb.key_size) := by
  constructor
  · intro m k v hget
    by_cases hk : k.length = 0
    · simp [hashmap_get, hk] at hget
    · simp only [hashmap_get, if_neg hk] at hget
      by_cases hle : m.bucketcount ≤ m.hashmap_hash_function k &&& m.hashmask
      · rw [if_pos hle] at hget
        cases hget
      · rw [if_neg hle] at hget
        cases hfind : (m.buckets.getD
            (m.hashmap_hash_function k &&& m.hashmask) []).find?
            (fun e => memcmp0 e.key k k.length) with
        | none => rw [hfind] at hget; cases hget
        | some e =>
          rw [hfind] at hget
          refine ⟨e, List.mem_of_find?_eq_some hfind, hget, ?_⟩
          have hp := List.find?_some hfind
          simpa [memcmp0] using hp
  · intro nb chain
    rw [insert_at_none]
    constructor
    · rintro ⟨e, he, hp⟩
      exact ⟨e, he, by simpa [memcmp0] using hp⟩
    · rintro ⟨e, he, hp⟩
      exact ⟨e, he, by simpa [memcmp0] using hp⟩

/-- C2 witness: the get-direction applied to the concrete map holding
key {1,2}, probed with key {1}. -/
theorem key_match_by_bytes_only_witness :
    ∃ e ∈ exampleMap1.buckets.getD
        (exampleMap1.hashmap_hash_function [1] &&& exampleMap1.hashmask) [],
      e.value = some 7 ∧
      e.key.take ([1] : List Nat).length = ([1] : List Nat).take ([1] : List Nat).length :=
  (key_match_by_bytes_only Nat).1 exampleMap1 [1] 7 (by decide)

/-- C2 counterexample: the map holds the single entry with key {1,2}
(stored length 2); `get` with the key {1} (length 1) returns that
entry's value 7, although the stored key's length differs from the
probe's, refuting "an entry whose stored key has a different length
than k is never reported as a match". -/
theorem key_match_length_ignored_counterexample :
    exampleMap1.buckets =
      [[{ key := [1, 2], key_size := 2, value := some 7 }]] ∧
    hashmap_get Nat exampleMap1 [1] = some 7 :=
  ⟨by decide, by decide⟩

theorem memcmp0_probe {e k : List Nat} :
    memcmp0 e k k.length = true ↔ e.take k.length = k := by
  simp [memcmp0, List.take_length]

theorem getD_mem_or_nil {α : Type} (l : List (List α)) (i : Nat) :
    l.getD i [] ∈ l ∨ l.getD i [] = [] := by
  by_cases h : i < l.length
  · left
    rw [List.getD_eq_getElem?_getD, List.getElem?_eq_getElem h]
    exact List.getElem_mem h
  · right
    rw [List.getD_eq_getElem?_getD, List.getElem?_eq_none (by omega)]
    rfl

theorem remove_success_fields {V : Type} {m : Hashmap V} {k : List Nat}
    {e : Hashbucket V} {chain'' : List (Hashbucket V)}
    (hk : ¬ k.length = 0)
    (hltb : m.hashmap_hash_function k &&& m.hashmask < m.bucketcount)
    (hunl : hashmap_remove_unlink V k
        (m.buckets.getD (m.hashmap_hash_function k &&& m.hashmask) []) =
      some (e, chain'')) :
    (hashmap_remove V m k).1.buckets =
      m.buckets.set (m.hashmap_hash_function k &&& m.hashmask) chain'' ∧
    (hashmap_remove V m k).1.bucketcount = m.bucketcount ∧
    (hashmap_remove V m k).1.hashmask = m.hashmask ∧
    (hashmap_remove V m k).1.hashmap_hash_function = m.hashmap_hash_function ∧
    (hashmap_remove V m k).2.1 = true := by
  rw [hashmap_remove_eq m k hk hltb, hunl]
  exact ⟨rfl, rfl, rfl, rfl, rfl⟩

/-- C6: within-chain key uniqueness is an invariant: in every map state
reachable by any sequence of `add` / `remove` calls from a freshly
constructed map, no bucket chain contains two entries with identical
key bytes and key length. -/
theorem chain_key_uniqueness (V : Type) (m : Hashmap V)
    (h : Hashmap.Reachable V m) :
    ∀ chain ∈ m.buckets,
      chain.Pairwise
        (fun a b => ¬ (a.key = b.key ∧ a.key_size = b.key_size)) := by
  induction h with
  | new c hf cf ff m0 hnew =>
    intro chain hchain
    simp only [hashmap_new] at hnew
    by_cases hc : c < 1
    · rw [if_pos hc] at hnew; cases hnew
    · rw [if_neg hc] at hnew
      have hm := Option.some.inj hnew
      subst hm
      have := List.eq_of_mem_replicate hchain
      subst this
      exact List.Pairwise.nil
  | add m0 key value hR ih =>
    intro chain hchain
    by_cases hk : key.length = 0
    · exact ih chain (by simpa [hashmap_add, hk] using hchain)
    · rw [hashmap_add_eq m0 key value hk] at hchain
      cases hins : hashmap_hashbucket_insert_at V
          (hashbucket_new V key (key.length % 256) value
            m0.value_clone_function)
          (m0.buckets.getD
            (m0.hashmap_hash_function key &&& m0.hashmask) []) with
      | none =>
        rw [hins] at hchain
        exact ih chain hchain
      | some chain' =>
        rw [hins] at hchain
        rcases List.mem_or_eq_of_mem_set hchain with hmem | heq
        · exact ih chain hmem
        · obtain ⟨hchain', hnomatch⟩ := insert_at_some hins
          subst heq
          rw [hchain']
          rw [List.pairwise_append]
          refine ⟨?_, List.pairwise_singleton _ _, ?_⟩
          · rcases getD_mem_or_nil m0.buckets
                (m0.hashmap_hash_function key &&& m0.hashmask) with hm | hm
            · exact ih _ hm
            · rw [hm]; exact List.Pairwise.nil
          · intro a ha b hb
            have hb' : b = hashbucket_new V key (key.length % 256) value
                m0.value_clone_function := by simpa using hb
            subst hb'
            intro ⟨hkeq, _⟩
            have := hnomatch a ha
            rw [memcmp0_of_eq _ hkeq] at this
            cases this
  | remove m0 key hR ih =>
    intro chain hchain
    by_cases hk : key.length = 0
    · exact ih chain (by simpa [hashmap_remove, hk] using hchain)
    · by_cases hle : m0.bucketcount ≤
          m0.hashmap_hash_function key &&& m0.hashmask
      · have hm : (hashmap_remove V m0 key).1 = m0 := by
          simp [hashmap_remove, hk, hle]
        rw [hm] at hchain
        exact ih chain hchain
      · rw [hashmap_remove_eq m0 key hk (Nat.not_le.mp hle)] at hchain
        cases hunl : hashmap_remove_unlink V key
            (m0.buckets.getD
              (m0.hashmap_hash_function key &&& m0.hashmask) []) with
        | none =>
          rw [hunl] at hchain
          exact ih chain hchain
        | some p =>
          obtain ⟨e, chain''⟩ := p
          rw [hunl] at hchain
          rcases List.mem_or_eq_of_mem_set hchain with hmem | heq
          · exact ih chain hmem
          · subst heq
            have hsub := unlink_sublist hunl
            have hold : (m0.buckets.getD
                (m0.hashmap_hash_function key &&& m0.hashmask) []).Pairwise
                (fun a b => ¬ (a.key = b.key ∧ a.key_size = b.key_size)) := by
              rcases getD_mem_or_nil m0.buckets
                  (m0.hashmap_hash_function key &&& m0.hashmask) with hm | hm
              · exact ih _ hm
              · rw [hm]; exact List.Pairwise.nil
            exact hold.sublist hsub

/-- C6 witness: the invariant instantiated at a concrete reachable
state (fresh map of capacity 1, then add of key {1,2}) and at that
state's single bucket chain. -/
theorem chain_key_uniqueness_witness :
    List.Pairwise
      (fun a b : Hashbucket Nat =>
        ¬ (a.key = b.key ∧ a.key_size = b.key_size))
      [{ key := [1, 2], key_size := 2, value := some 7 }] :=
  chain_key_uniqueness Nat exampleMap1
    (Hashmap.Reachable.add exampleMap0 [1, 2] (some 7)
      (Hashmap.Reachable.new 1 exampleHash none true exampleMap0
        exampleMap0_new))
    [{ key := [1, 2], key_size := 2, value := some 7 }] (by decide)

/-- C5 (amended): for a non-empty key k on a well-formed map, remove
fails (not-found, map unchanged) when no entry in k's bucket chain has
k as a byte-prefix of its key; and when an entry with key exactly k is
present, every prefix-matching entry in the chain has key exactly k
(no colliding extensions), and chain keys are pairwise distinct, then
remove(k) succeeds, a subsequent get(k) reports not-found and a second
remove(k) reports not-found.  The original, unqualified claim is false:
remove(k) on an absent key can succeed by unlinking an entry whose key
merely begins with k's bytes (see the counterexample). -/
theorem remove_semantics (V : Type) (m : Hashmap V) (k : List Nat)
    (chain : List (Hashbucket V))
    (hwf : Hashmap.WF V m) (hk : k.length ≠ 0)
    (hchain : chain =
      m.buckets.getD (m.hashmap_hash_function k &&& m.hashmask) []) :
    ((∀ e ∈ chain, e.key.take k.length ≠ k) →
      hashmap_remove V m k = (m, false, [])) ∧
    ((∃ e ∈ chain, e.key = k) →
      (∀ e ∈ chain, e.key.take k.length = k → e.key = k) →
      chain.Pairwise (fun a b => a.key ≠ b.key) →
      (hashmap_remove V m k).2.1 = true ∧
      hashmap_get V (hashmap_remove V m k).1 k = none ∧
      (hashmap_remove V (hashmap_remove V m k).1 k).2.1 = false) := by
  obtain ⟨hltb, hltl⟩ := wf_index_lt hwf k
  subst hchain
  constructor
  · intro habsent
    rw [hashmap_remove_eq m k hk hltb]
    have hunl : hashmap_remove_unlink V k
        (m.buckets.getD (m.hashmap_hash_function k &&& m.hashmask) []) =
        none := by
      apply unlink_none.mpr
      intro e he
      simpa [memcmp0, List.take_length] using habsent e he
    rw [hunl]
  · rintro ⟨e0, he0, hke0⟩ honly hpw
    cases hunl : hashmap_remove_unlink V k
        (m.buckets.getD (m.hashmap_hash_function k &&& m.hashmask) []) with
    | none =>
      exfalso
      have hfalse := unlink_none.mp hunl e0 he0
      have htrue : memcmp0 e0.key k k.length = true :=
        memcmp0_probe.mpr (by rw [hke0]; exact List.take_length k)
      rw [htrue] at hfalse
      cases hfalse
    | some p =>
      obtain ⟨e, chain''⟩ := p
      obtain ⟨hbk, hbc, hmask, hhf, htrue⟩ := remove_success_fields hk hltb hunl
      obtain ⟨l1, l2, hsplit, hc'', hl1, hpe⟩ := unlink_some hunl
      have hall : ∀ x ∈ chain'', memcmp0 x.key k k.length = false := by
        intro x hx
        rw [hc''] at hx
        rcases List.mem_append.mp hx with hx | hx
        · exact hl1 x hx
        · cases hmm : memcmp0 x.key k k.length with
          | false => rfl
          | true =>
            exfalso
            have hxk : x.key = k := honly x
              (by rw [hsplit]
                  exact List.mem_append_right _ (List.mem_cons_of_mem _ hx))
              (memcmp0_probe.mp hmm)
            have hek : e.key = k := honly e
              (by rw [hsplit]
                  exact List.mem_append_right _ (List.mem_cons_self _ _))
              (memcmp0_probe.mp hpe)
            have hpw' := hsplit ▸ hpw
            have hcons := (List.pairwise_append.mp hpw').2.1
            have hneq := (List.pairwise_cons.mp hcons).1 x hx
            exact hneq (by rw [hek, hxk])
      have hlt1 : (hashmap_remove V m k).1.hashmap_hash_function k &&&
          (hashmap_remove V m k).1.hashmask <
          (hashmap_remove V m k).1.bucketcount := by
        rw [hhf, hmask, hbc]; exact hltb
      refine ⟨htrue, ?_, ?_⟩
      · rw [hashmap_get_eq _ k hk hlt1, hhf, hmask, hbk, getD_set_self hltl]
        have hfind : chain''.find? (fun x => memcmp0 x.key k k.length) =
            none :=
          List.find?_eq_none.mpr (fun x hx => by simp [hall x hx])
        rw [hfind]
      · rw [hashmap_remove_eq _ k hk hlt1, hhf, hmask, hbk,
          getD_set_self hltl]
        have hunl2 : hashmap_remove_unlink V k chain'' = none :=
          unlink_none.mpr hall
        rw [hunl2]

/-- C5 witness: the present-key direction at the concrete one-entry
map holding key {5}: remove succeeds, get then fails, second remove
fails. -/
theorem remove_semantics_witness :
    (hashmap_remove Nat exampleMap5 [5]).2.1 = true ∧
    hashmap_get Nat (hashmap_remove Nat exampleMap5 [5]).1 [5] = none ∧
    (hashmap_remove Nat (hashmap_remove Nat exampleMap5 [5]).1 [5]).2.1 =
      false :=
  (remove_semantics Nat exampleMap5 [5]
      [{ key := [5], key_size := 1, value := some 7 }]
      ⟨rfl, ⟨0, rfl⟩, rfl⟩ (by decide) (by decide)).2
    (by decide) (by decide) (by decide)

/-- C5 counterexample: in the two-entry map holding keys {1,2} and
{1,3} the key {1} is absent (no stored key equals {1}), yet
remove({1}) returns success, unlinking the entry {1,2} whose first
byte matches — refuting "remove on an absent key returns not-found". -/
theorem remove_absent_key_succeeds_counterexample :
    exampleMap2.buckets =
      [[{ key := [1, 2], key_size := 2, value := some 7 },
        { key := [1, 3], key_size := 2, value := some 8 }]] ∧
    (hashmap_remove Nat exampleMap2 [1]).2.1 = true ∧
    (hashmap_remove Nat exampleMap2 [1]).1.buckets =
      [[{ key := [1, 3], key_size := 2, value := some 8 }]] :=
  ⟨by decide, by decide, by decide⟩
